import Mathlib

/-!
Shallow embedding of the Digilent JTAG mock (digilent_jtag_mock.cpp and the
MSB-first shifter of jtag_counter_tests.cpp).

The external simulated circuit is modelled as a StepOracle: a function from
the full trace of step calls issued so far (the last element being the call
being answered) to the TDO bit returned for that call.  Every operation that
issues step calls is threaded with the current trace and returns the extended
trace, so theorems can speak about exactly which calls an operation issues.

Byte-packed vectors (uint8_t buffers accessed through raw pointers) are
modelled as List Nat read with getD, bits with Nat.testBit; bit counts are
naturals; C int values that can be negative in principle (frequencies,
timeouts) are modelled as Int.  Randomness (simulate_communication_error) is
modelled as an explicit boolean parameter, the outcome of the random draw.
-/

namespace JtagMock

/-- One call to the SystemVerilog step primitive sv_jtag_step: the driven
TMS and TDI values and the is_last flag. -/
structure StepCall where
  tms : Bool
  tdi : Bool
  is_last : Bool
deriving DecidableEq, Repr

/-- The simulated circuit: answers the TDO bit of the last call of the trace,
possibly depending on the whole history of driven bits. -/
abbrev Oracle := List StepCall → Bool

/-- Per-handle mock adapter state, from class JtagDevice. -/
structure JtagDevice where
  enabled : Bool
  clock_freq : Int
  tck_state : Bool
  tms_state : Bool
  tdi_state : Bool
  tdo_state : Bool
  device_id : Nat
  timeout_ms : Int
deriving DecidableEq, Repr

/-- The JtagDevice default constructor. -/
def JtagDevice.mkDefault : JtagDevice :=
  { enabled := false, clock_freq := 1000000, tck_state := false, tms_state := false,
    tdi_state := false, tdo_state := false, device_id := 0x12345678, timeout_ms := 1000 }

/-- The device registry: std::map from handle to JtagDevice. -/
abbrev Registry := Int → Option JtagDevice

/-- Store a device under a handle (map insertion or overwrite). -/
def Registry.update (reg : Registry) (hif : Int) (d : JtagDevice) : Registry :=
  fun h => if h = hif then some d else reg h

/-- bool simulate_timeout(int operation_time_ms, int timeout_ms). -/
def simulate_timeout (operation_time_ms timeout_ms : Int) : Bool :=
  operation_time_ms > timeout_ms

/-- bytes_to_bits: bit i of the result is bit (i mod 8) of byte i/8. -/
def bytes_to_bits (bytes : List Nat) (bit_count : Nat) : List Bool :=
  (List.range bit_count).map (fun i => Nat.testBit (bytes.getD (i / 8) 0) (i % 8))

/-- bits_to_bytes: ceil(len/8) zero bytes, then each true bit i sets bit
(i mod 8) of byte i/8. -/
def bits_to_bytes (bits : List Bool) : List Nat :=
  (List.range bits.length).foldl
    (fun bytes i =>
      if bits.getD i false then
        bytes.set (i / 8) ((bytes.getD (i / 8) 0) ||| (1 <<< (i % 8)))
      else bytes)
    (List.replicate ((bits.length + 7) / 8) 0)

/-- One call of sv_jtag_step: extends the trace and reads the oracle answer. -/
def sv_jtag_step (oracle : Oracle) (trace : List StepCall) (tms tdi is_last : Bool) :
    List StepCall × Bool :=
  let t := trace ++ [⟨tms, tdi, is_last⟩]
  (t, oracle t)

/-- void tap_reset(): five TMS=1 steps then one TMS=0 step, TDO discarded. -/
def tap_reset (oracle : Oracle) (trace : List StepCall) : List StepCall :=
  let t5 := (List.range 5).foldl (fun tr _ => (sv_jtag_step oracle tr true false false).1) trace
  (sv_jtag_step oracle t5 false false false).1

/-- void navigate_to_shift_ir(): TMS sequence 1,1,0,0. -/
def navigate_to_shift_ir (oracle : Oracle) (trace : List StepCall) : List StepCall :=
  [true, true, false, false].foldl (fun tr tms => (sv_jtag_step oracle tr tms false false).1) trace

/-- void navigate_to_shift_dr(): TMS sequence 1,0,0. -/
def navigate_to_shift_dr (oracle : Oracle) (trace : List StepCall) : List StepCall :=
  [true, false, false].foldl (fun tr tms => (sv_jtag_step oracle tr tms false false).1) trace

/-- void navigate_to_shift_dr_with_idle(): one extra TMS=0 idle step, then
TMS sequence 1,0,0. -/
def navigate_to_shift_dr_with_idle (oracle : Oracle) (trace : List StepCall) : List StepCall :=
  let t := (sv_jtag_step oracle trace false false false).1
  [true, false, false].foldl (fun tr tms => (sv_jtag_step oracle tr tms false false).1) t

/-- void exit_to_run_test_idle(): TMS=1 step then TMS=0 step. -/
def exit_to_run_test_idle (oracle : Oracle) (trace : List StepCall) : List StepCall :=
  let t := (sv_jtag_step oracle trace true false false).1
  (sv_jtag_step oracle t false false false).1

/-- int djtg_enable(int hif): on a simulated communication error return FALSE
without mutation, otherwise insert a fresh default device and mark it enabled. -/
def djtg_enable (comm_error : Bool) (reg : Registry) (hif : Int) : Registry × Bool :=
  if comm_error then (reg, false)
  else (Registry.update reg hif { JtagDevice.mkDefault with enabled := true }, true)

/-- int djtg_disable(int hif). -/
def djtg_disable (reg : Registry) (hif : Int) : Registry × Bool :=
  match reg hif with
  | none => (reg, false)
  | some d =>
    if d.enabled = false then (reg, false)
    else (Registry.update reg hif { d with enabled := false }, true)

/-- int djtg_set_speed(int hif, int freq_req, int star freq_set): none models
FALSE with freq_set unwritten, some f models TRUE with freq_set = f. -/
def djtg_set_speed (reg : Registry) (hif : Int) (freq_req : Int) : Registry × Option Int :=
  match reg hif with
  | none => (reg, none)
  | some d =>
    if d.enabled = false then (reg, none)
    else
      let max_freq : Int := 50000000
      let min_freq : Int := 1000
      let actual_freq :=
        if freq_req > max_freq then max_freq
        else if freq_req < min_freq then min_freq
        else freq_req
      (Registry.update reg hif { d with clock_freq := actual_freq }, some actual_freq)

/-- int djtg_get_speed(int hif, int star freq_cur). -/
def djtg_get_speed (reg : Registry) (hif : Int) : Option Int :=
  match reg hif with
  | none => none
  | some d => if d.enabled = false then none else some d.clock_freq

/-- Non-clocked pin level primitives of the oracle, drive_jtag_pins and
read_jtag_pins, recorded as events so theorems can state that none occurred. -/
inductive PinEvent where
  | drive (tck tms tdi : Bool)
  | readTdo
deriving DecidableEq, Repr

/-- int djtg_set_tms_tdi_tck(int hif, svBit tms, svBit tdi, svBit tck). -/
def djtg_set_tms_tdi_tck (reg : Registry) (hif : Int) (tms tdi tck : Bool) :
    Registry × List PinEvent × Bool :=
  match reg hif with
  | none => (reg, [], false)
  | some d =>
    if d.enabled = false then (reg, [], false)
    else (Registry.update reg hif { d with tms_state := tms, tdi_state := tdi, tck_state := tck },
          [PinEvent.drive tck tms tdi], true)

/-- int djtg_get_tms_tdi_tdo_tck: rtl_tdo is the value the oracle pin read
would return; the returned tuple is (tms, tdi, tdo, tck). -/
def djtg_get_tms_tdi_tdo_tck (reg : Registry) (hif : Int) (rtl_tdo : Bool) :
    Registry × List PinEvent × Option (Bool × Bool × Bool × Bool) :=
  match reg hif with
  | none => (reg, [], none)
  | some d =>
    if d.enabled = false then (reg, [], none)
    else (Registry.update reg hif { d with tdo_state := rtl_tdo },
          [PinEvent.readTdo], some (d.tms_state, d.tdi_state, rtl_tdo, d.tck_state))

/-- Body of the per-bit loop of djtg_put_tms_tdi_bits: reads TMS/TDI bit
bit_idx of the packed input vectors, issues one step call, and ORs the
captured TDO into bit (bit_idx mod 8) of output byte bit_idx/8. -/
def put_step (oracle : Oracle) (tms_data tdi_data : List Nat) (cbit : Nat)
    (acc : List StepCall × List Nat) (bit_idx : Nat) : List StepCall × List Nat :=
  let byte_idx := bit_idx / 8
  let bit_pos := bit_idx % 8
  let tms_bit := Nat.testBit (tms_data.getD byte_idx 0) bit_pos
  let tdi_bit := Nat.testBit (tdi_data.getD byte_idx 0) bit_pos
  let is_last := decide (bit_idx = cbit - 1)
  let r := sv_jtag_step oracle acc.1 tms_bit tdi_bit is_last
  (r.1, if r.2 then acc.2.set byte_idx ((acc.2.getD byte_idx 0) ||| (1 <<< bit_pos)) else acc.2)

/-- int djtg_put_tms_tdi_bits: enabled check, pre-flight timeout estimate
cbit/1000 against timeout_ms, zero-initialised output of (cbit+7)/8 bytes,
then the per-bit loop.  none models FALSE with the output vector unwritten. -/
def djtg_put_tms_tdi_bits (oracle : Oracle) (reg : Registry) (hif : Int)
    (tms_data tdi_data : List Nat) (cbit : Nat) (overlap : Bool) (trace : List StepCall) :
    Registry × List StepCall × Option (List Nat) :=
  match reg hif with
  | none => (reg, trace, none)
  | some d =>
    if d.enabled = false then (reg, trace, none)
    else if simulate_timeout ((cbit : Int) / 1000) d.timeout_ms then (reg, trace, none)
    else
      let byte_count := (cbit + 7) / 8
      let r := (List.range cbit).foldl (put_step oracle tms_data tdi_data cbit)
                 (trace, List.replicate byte_count 0)
      (reg, r.1, some r.2)

/-- int djtg_get_tms_tdi_tdo_bits: for this mock, identical to the put
operation. -/
def djtg_get_tms_tdi_tdo_bits (oracle : Oracle) (reg : Registry) (hif : Int)
    (tms_data tdi_data : List Nat) (cbit : Nat) (overlap : Bool) (trace : List StepCall) :
    Registry × List StepCall × Option (List Nat) :=
  djtg_put_tms_tdi_bits oracle reg hif tms_data tdi_data cbit overlap trace

/-- uint32_t shift_data_register_msb_first (jtag_counter_tests.cpp): drives
TDI from bit bit_count-1 of data down to bit 0, TMS and is_last set on the
final bit only, captured TDO written into bit bit_count-1-i of the result. -/
def shift_data_register_msb_first (oracle : Oracle) (trace : List StepCall)
    (data : Nat) (bit_count : Nat) : List StepCall × Nat :=
  (List.range bit_count).foldl
    (fun acc i =>
      let bit_val := Nat.testBit data (bit_count - 1 - i)
      let is_last := decide (i = bit_count - 1)
      let r := sv_jtag_step oracle acc.1 is_last bit_val is_last
      (r.1, if r.2 then acc.2 ||| (1 <<< (bit_count - 1 - i)) else acc.2))
    (trace, 0)

/-- The step call that iteration i of the bulk-shift loop issues. -/
def expected_call (tms_data tdi_data : List Nat) (cbit i : Nat) : StepCall :=
  ⟨Nat.testBit (tms_data.getD (i / 8) 0) (i % 8),
   Nat.testBit (tdi_data.getD (i / 8) 0) (i % 8),
   decide (i = cbit - 1)⟩

/-- The full call sequence a successful bulk shift issues. -/
def expected_calls (tms_data tdi_data : List Nat) (cbit : Nat) : List StepCall :=
  (List.range cbit).map (expected_call tms_data tdi_data cbit)

/-- The step call that iteration i of the MSB-first shifter issues. -/
def msb_call (data bit_count i : Nat) : StepCall :=
  ⟨decide (i = bit_count - 1), Nat.testBit data (bit_count - 1 - i),
   decide (i = bit_count - 1)⟩

/-- The full call sequence of the MSB-first shifter. -/
def msb_calls (data bit_count : Nat) : List StepCall :=
  (List.range bit_count).map (msb_call data bit_count)

/-- A navigation step call: the given TMS with TDI = 0 and is_last = 0. -/
def nav_call (tms : Bool) : StepCall := ⟨tms, false, false⟩

/-- A pure loopback oracle: TDO echoes the TDI driven on the same call. -/
def loopback : Oracle := fun trace => ((trace.getLast?).map StepCall.tdi).getD false

/-! ### Generic helper lemmas about getD, set and testBit -/

lemma getD_replicate_zero (n B : Nat) : (List.replicate n (0 : Nat)).getD B 0 = 0 := by
  rw [List.getD_eq_getElem?_getD, List.getElem?_replicate]
  split <;> simp

lemma getD_set_self (l : List Nat) (n x : Nat) (h : n < l.length) :
    (l.set n x).getD n 0 = x := by
  rw [List.getD_eq_getElem?_getD, List.getElem?_set_self]
  · simp
  · exact h

lemma getD_set_ne (l : List Nat) (n m x : Nat) (h : n ≠ m) :
    (l.set n x).getD m 0 = l.getD m 0 := by
  rw [List.getD_eq_getElem?_getD, List.getElem?_set_ne h, ← List.getD_eq_getElem?_getD]

lemma getD_set_cases (l : List Nat) (n m x : Nat) :
    (l.set n x).getD m 0 = if n = m ∧ n < l.length then x else l.getD m 0 := by
  by_cases hm : n = m
  · subst hm
    by_cases hl : n < l.length
    · rw [getD_set_self l n x hl]
      simp [hl]
    · rw [List.set_eq_of_length_le (Nat.le_of_not_lt hl)]
      simp [hl]
  · rw [getD_set_ne l n m x hm]
    simp [hm]

lemma testBit_one_shiftLeft (p q : Nat) : Nat.testBit (1 <<< p) q = decide (p = q) := by
  have h1 : (1 : Nat) <<< p = 2 ^ p := by rw [Nat.shiftLeft_eq, one_mul]
  rw [h1, Nat.testBit_two_pow]

/-- Writing (OR of a single bit) into byte j/8 at position j mod 8 does not
change the bit at byte B position P when (B, P) is not the slot of j. -/
lemma testBit_setOr_ne (td : List Nat) (j B P : Nat) (h : ¬(j / 8 = B ∧ j % 8 = P)) :
    Nat.testBit ((td.set (j / 8) ((td.getD (j / 8) 0) ||| (1 <<< (j % 8)))).getD B 0) P
      = Nat.testBit (td.getD B 0) P := by
  rw [getD_set_cases]
  split
  case isTrue hc =>
    rcases hc with ⟨hB, _⟩
    have hP : ¬(j % 8 = P) := fun hp => h ⟨hB, hp⟩
    rw [Nat.testBit_or, testBit_one_shiftLeft, ← hB]
    simp [hP]
  case isFalse => rfl

/-- The written slot itself reads back true. -/
lemma testBit_setOr_self (td : List Nat) (j : Nat) (h : j / 8 < td.length) :
    Nat.testBit ((td.set (j / 8) ((td.getD (j / 8) 0) ||| (1 <<< (j % 8)))).getD (j / 8) 0)
        (j % 8) = true := by
  rw [getD_set_self _ _ _ h, Nat.testBit_or, testBit_one_shiftLeft]
  simp

/-- Two lists of equal length and equal getD values everywhere are equal. -/
lemma list_eq_of_getD {α : Type} (d : α) :
    ∀ (l1 l2 : List α), l1.length = l2.length → (∀ j, l1.getD j d = l2.getD j d) → l1 = l2
  | [], [], _, _ => rfl
  | [], _ :: _, hlen, _ => by simp at hlen
  | _ :: _, [], hlen, _ => by simp at hlen
  | a :: t1, b :: t2, hlen, h => by
      have h0 : a = b := h 0
      have ht : t1 = t2 :=
        list_eq_of_getD d t1 t2 (by simpa using hlen) (fun j => h (j + 1))
      rw [h0, ht]

/-! ### Lemmas about the bulk-shift loop -/

lemma put_step_fst (o : Oracle) (a b : List Nat) (c : Nat)
    (acc : List StepCall × List Nat) (i : Nat) :
    (put_step o a b c acc i).1 = acc.1 ++ [expected_call a b c i] := rfl

lemma put_step_snd (o : Oracle) (a b : List Nat) (c : Nat)
    (acc : List StepCall × List Nat) (i : Nat) :
    (put_step o a b c acc i).2 =
      if o (acc.1 ++ [expected_call a b c i]) then
        acc.2.set (i / 8) ((acc.2.getD (i / 8) 0) ||| (1 <<< (i % 8)))
      else acc.2 := rfl

lemma put_foldl_trace (o : Oracle) (a b : List Nat) (c : Nat) :
    ∀ (l : List Nat) (acc : List StepCall × List Nat),
      (l.foldl (put_step o a b c) acc).1 = acc.1 ++ l.map (expected_call a b c)
  | [], acc => by simp
  | i :: t, acc => by
      rw [List.foldl_cons, put_foldl_trace o a b c t (put_step o a b c acc i),
        put_step_fst]
      simp

lemma put_foldl_length (o : Oracle) (a b : List Nat) (c : Nat) :
    ∀ (l : List Nat) (acc : List StepCall × List Nat),
      (l.foldl (put_step o a b c) acc).2.length = acc.2.length
  | [], _ => rfl
  | i :: t, acc => by
      rw [List.foldl_cons, put_foldl_length o a b c t (put_step o a b c acc i),
        put_step_snd]
      split
      · exact List.length_set acc.2 _ _
      · rfl

lemma put_foldl_preserve (o : Oracle) (a b : List Nat) (c : Nat) :
    ∀ (l : List Nat) (acc : List StepCall × List Nat) (B P : Nat),
      (∀ j ∈ l, ¬(j / 8 = B ∧ j % 8 = P)) →
      Nat.testBit ((l.foldl (put_step o a b c) acc).2.getD B 0) P
        = Nat.testBit (acc.2.getD B 0) P
  | [], _, _, _, _ => rfl
  | i :: t, acc, B, P, h => by
      rw [List.foldl_cons,
        put_foldl_preserve o a b c t (put_step o a b c acc i) B P
          (fun j hj => h j (List.mem_cons_of_mem i hj)),
        put_step_snd]
      have hi := h i (List.mem_cons_self i t)
      split
      · exact testBit_setOr_ne acc.2 i B P hi
      · rfl

/-- The bit slot of index i of the output vector of the bulk loop holds
exactly the oracle answer to call i. -/
lemma put_range_bit (o : Oracle) (a b : List Nat) (c : Nat) (tr : List StepCall)
    (td : List Nat) (hzero : ∀ B P, Nat.testBit (td.getD B 0) P = false)
    (hlen : ∀ i, i < c → i / 8 < td.length) (i : Nat) (hi : i < c) :
    Nat.testBit (((List.range c).foldl (put_step o a b c) (tr, td)).2.getD (i / 8) 0) (i % 8)
      = o (tr ++ (expected_calls a b c).take (i + 1)) := by
  have hsplit : List.range c
      = List.range (i + 1) ++ (List.range (c - (i + 1))).map ((i + 1) + ·) := by
    rw [← List.range_add]
    congr 1
    omega
  rw [hsplit, List.foldl_append,
    put_foldl_preserve o a b c _ _ _ _ (by
      intro j hj
      simp only [List.mem_map, List.mem_range] at hj
      obtain ⟨k, hk1, hk2⟩ := hj
      omega)]
  rw [List.range_succ, List.foldl_append, List.foldl_cons, List.foldl_nil, put_step_snd]
  have htr : ((List.range i).foldl (put_step o a b c) (tr, td)).1
      = tr ++ (List.range i).map (expected_call a b c) := put_foldl_trace o a b c _ _
  have htake : tr ++ (expected_calls a b c).take (i + 1)
      = (tr ++ (List.range i).map (expected_call a b c)) ++ [expected_call a b c i] := by
    rw [expected_calls, ← List.map_take, List.take_range]
    have hmin : min (i + 1) c = i + 1 := by omega
    rw [hmin, List.range_succ, List.map_append, List.append_assoc]
    simp
  have hbit0 : Nat.testBit
      (((List.range i).foldl (put_step o a b c) (tr, td)).2.getD (i / 8) 0) (i % 8)
        = false := by
    rw [put_foldl_preserve o a b c _ _ _ _ (by
      intro j hj
      simp only [List.mem_range] at hj
      omega)]
    exact hzero _ _
  rw [htr, htake]
  split
  case isTrue ho =>
    rw [testBit_setOr_self]
    · exact ho.symm
    · rw [put_foldl_length]
      simpa using hlen i hi
  case isFalse ho =>
    rw [hbit0]
    simp only [Bool.not_eq_true] at ho
    exact ho.symm

/-- Bit slots of the output vector that no loop index writes stay zero. -/
lemma put_range_bit_zero (o : Oracle) (a b : List Nat) (c : Nat) (tr : List StepCall)
    (td : List Nat) (hzero : ∀ B P, Nat.testBit (td.getD B 0) P = false) (B P : Nat)
    (h : ∀ j, j < c → ¬(j / 8 = B ∧ j % 8 = P)) :
    Nat.testBit (((List.range c).foldl (put_step o a b c) (tr, td)).2.getD B 0) P = false := by
  rw [put_foldl_preserve o a b c _ _ _ _ (fun j hj => h j (List.mem_range.mp hj))]
  exact hzero B P

lemma testBit_getD_replicate_zero (n : Nat) :
    ∀ B P, Nat.testBit ((List.replicate n (0 : Nat)).getD B 0) P = false := by
  intro B P
  rw [getD_replicate_zero]
  simp

/-! ### Claim theorems -/

/-- What a successful bulk shift produces: the registry untouched, exactly the
cbit expected step calls appended to the trace in index order, and an output
vector of ceil(cbit/8) bytes whose slot for bit i holds the TDO captured on
call i, every other bit zero. -/
def bulk_shift_spec (oracle : Oracle) (reg : Registry) (tms_data tdi_data : List Nat)
    (cbit : Nat) (trace : List StepCall)
    (r : Registry × List StepCall × Option (List Nat)) : Prop :=
  r.1 = reg ∧
  r.2.1 = trace ++ expected_calls tms_data tdi_data cbit ∧
  ∃ out, r.2.2 = some out ∧
    out.length = (cbit + 7) / 8 ∧
    (∀ i, i < cbit →
      Nat.testBit (out.getD (i / 8) 0) (i % 8)
        = oracle (trace ++ (expected_calls tms_data tdi_data cbit).take (i + 1))) ∧
    (∀ B P, (P < 8 → cbit ≤ 8 * B + P) → Nat.testBit (out.getD B 0) P = false)

/-- C1: for every enabled handle and every bitCount passing the timeout check,
djtg_put_tms_tdi_bits issues exactly cbit step calls in index order, call i
driving bit (i mod 8) of byte i/8 of the TMS and TDI vectors with is_last set
exactly on i = cbit-1, and the output vector holds the captured TDO of call i
in bit (i mod 8) of byte i/8, all other bits of its ceil(cbit/8) bytes zero. -/
theorem put_tms_tdi_bits_correct (oracle : Oracle) (reg : Registry) (hif : Int)
    (d : JtagDevice) (tms_data tdi_data : List Nat) (cbit : Nat) (overlap : Bool)
    (trace : List StepCall) (hreg : reg hif = some d) (hen : d.enabled = true)
    (htime : simulate_timeout ((cbit : Int) / 1000) d.timeout_ms = false) :
    bulk_shift_spec oracle reg tms_data tdi_data cbit trace
      (djtg_put_tms_tdi_bits oracle reg hif tms_data tdi_data cbit overlap trace) := by
  have hstep : djtg_put_tms_tdi_bits oracle reg hif tms_data tdi_data cbit overlap trace
      = (reg, ((List.range cbit).foldl (put_step oracle tms_data tdi_data cbit)
            (trace, List.replicate ((cbit + 7) / 8) 0)).1,
          some ((List.range cbit).foldl (put_step oracle tms_data tdi_data cbit)
            (trace, List.replicate ((cbit + 7) / 8) 0)).2) := by
    simp [djtg_put_tms_tdi_bits, hreg, hen, htime]
  rw [hstep]
  refine ⟨rfl, ?_, _, rfl, ?_, ?_, ?_⟩
  · rw [put_foldl_trace]
    rfl
  · rw [put_foldl_length]
    simp
  · intro i hi
    exact put_range_bit oracle tms_data tdi_data cbit trace _
      (testBit_getD_replicate_zero _) (by intro j hj; simp only [List.length_replicate]; omega)
      i hi
  · intro B P hBP
    refine put_range_bit_zero oracle tms_data tdi_data cbit trace _
      (testBit_getD_replicate_zero _) B P ?_
    intro j hj hcon
    obtain ⟨h1, h2⟩ := hcon
    omega

/-- C2: reset, gotoShiftIR, exitToRunTestIdle, gotoShiftDRWithIdle issue
exactly 16 step calls, all with TDI = 0 and is_last = 0, whose TMS values are
1,1,1,1,1,0, then 1,1,0,0, then 1,0, then 0,1,0,0, for every oracle. -/
theorem nav_sequence_calls (oracle : Oracle) (trace : List StepCall) :
    navigate_to_shift_dr_with_idle oracle
        (exit_to_run_test_idle oracle (navigate_to_shift_ir oracle (tap_reset oracle trace)))
      = trace ++ List.map nav_call
          [true, true, true, true, true, false,
           true, true, false, false,
           true, false,
           false, true, false, false] := by
  have h5 : List.range 5 = [0, 1, 2, 3, 4] := rfl
  simp [tap_reset, navigate_to_shift_ir, exit_to_run_test_idle,
    navigate_to_shift_dr_with_idle, sv_jtag_step, nav_call, h5]

/-- What setSpeed does on an enabled handle: stores and returns the clamp of
the request into [1000, 50000000], getSpeed then reads it back, and the three
clamping instances of the spec. -/
def set_speed_spec (reg : Registry) (hif : Int) (d : JtagDevice) (f : Int) : Prop :=
  (djtg_set_speed reg hif f).2 = some (min (max f 1000) 50000000) ∧
  ((djtg_set_speed reg hif f).1) hif = some { d with clock_freq := min (max f 1000) 50000000 } ∧
  djtg_get_speed ((djtg_set_speed reg hif f).1) hif = some (min (max f 1000) 50000000) ∧
  (djtg_set_speed reg hif 100000000).2 = some 50000000 ∧
  (djtg_set_speed reg hif 10).2 = some 1000 ∧
  (djtg_set_speed reg hif 2000000).2 = some 2000000

/-- C3: for every enabled handle and every requested frequency, setSpeed
succeeds, stores and returns min(max(f, 1000), 50000000), getSpeed returns
the same value, and the three concrete clamping instances hold. -/
theorem set_speed_clamps (reg : Registry) (hif : Int) (d : JtagDevice) (f : Int)
    (hreg : reg hif = some d) (hen : d.enabled = true) :
    set_speed_spec reg hif d f := by
  have key : ∀ g : Int, djtg_set_speed reg hif g
      = (Registry.update reg hif { d with clock_freq := min (max g 1000) 50000000 },
         some (min (max g 1000) 50000000)) := by
    intro g
    unfold djtg_set_speed
    rw [hreg]
    simp only [hen, Bool.true_eq_false, if_false]
    split_ifs with h1 h2
    · have hv : min (max g 1000) 50000000 = 50000000 := by omega
      rw [hv]
    · have hv : min (max g 1000) 50000000 = 1000 := by omega
      rw [hv]
    · have hv : min (max g 1000) 50000000 = g := by omega
      rw [hv]
  refine ⟨by rw [key f], ?_, ?_, ?_, ?_, ?_⟩
  · rw [key f]
    simp [Registry.update]
  · rw [key f]
    simp [djtg_get_speed, Registry.update, hen]
  · rw [key 100000000]
    norm_num
  · rw [key 10]
    norm_num
  · rw [key 2000000]
    norm_num

/-- Every protocol operation other than enable fails on the handle, leaves
the registry untouched, and issues no oracle call of any kind. -/
def not_enabled_spec (reg : Registry) (hif : Int) : Prop :=
  djtg_disable reg hif = (reg, false) ∧
  (∀ f, djtg_set_speed reg hif f = (reg, none)) ∧
  djtg_get_speed reg hif = none ∧
  (∀ tms tdi tck, djtg_set_tms_tdi_tck reg hif tms tdi tck = (reg, [], false)) ∧
  (∀ rtl_tdo, djtg_get_tms_tdi_tdo_tck reg hif rtl_tdo = (reg, [], none)) ∧
  (∀ oracle tms_data tdi_data cbit overlap trace,
    djtg_put_tms_tdi_bits oracle reg hif tms_data tdi_data cbit overlap trace
      = (reg, trace, none)) ∧
  (∀ oracle tms_data tdi_data cbit overlap trace,
    djtg_get_tms_tdi_tdo_bits oracle reg hif tms_data tdi_data cbit overlap trace
      = (reg, trace, none))

/-- C4: for every handle with no registry entry or a disabled entry, every
operation other than enable fails, mutates no registry state, and issues no
oracle calls. -/
theorem not_enabled_ops_fail (reg : Registry) (hif : Int)
    (h : ∀ d, reg hif = some d → d.enabled = false) :
    not_enabled_spec reg hif := by
  rcases hr : reg hif with _ | d
  · exact ⟨by simp [djtg_disable, hr],
      fun f => by simp [djtg_set_speed, hr],
      by simp [djtg_get_speed, hr],
      fun tms tdi tck => by simp [djtg_set_tms_tdi_tck, hr],
      fun rtl_tdo => by simp [djtg_get_tms_tdi_tdo_tck, hr],
      fun o a b c ov tr => by simp [djtg_put_tms_tdi_bits, hr],
      fun o a b c ov tr => by simp [djtg_get_tms_tdi_tdo_bits, djtg_put_tms_tdi_bits, hr]⟩
  · have hd := h d hr
    exact ⟨by simp [djtg_disable, hr, hd],
      fun f => by simp [djtg_set_speed, hr, hd],
      by simp [djtg_get_speed, hr, hd],
      fun tms tdi tck => by simp [djtg_set_tms_tdi_tck, hr, hd],
      fun rtl_tdo => by simp [djtg_get_tms_tdi_tdo_tck, hr, hd],
      fun o a b c ov tr => by simp [djtg_put_tms_tdi_bits, hr, hd],
      fun o a b c ov tr => by simp [djtg_get_tms_tdi_tdo_bits, djtg_put_tms_tdi_bits, hr, hd]⟩

/-- C5: enable either fails on a simulated communication error leaving the
registry entirely unchanged, or succeeds and sets the handle to the default
state (enabled, 1 MHz, 1000 ms timeout, deviceId 0x12345678, pins low),
leaving every other handle unchanged; re-enabling resets to these defaults. -/
theorem enable_behavior (comm_error : Bool) (reg : Registry) (hif : Int) :
    (comm_error = true → djtg_enable comm_error reg hif = (reg, false)) ∧
    (comm_error = false →
      (djtg_enable comm_error reg hif).2 = true ∧
      (djtg_enable comm_error reg hif).1 hif
        = some { enabled := true, clock_freq := 1000000, tck_state := false,
                 tms_state := false, tdi_state := false, tdo_state := false,
                 device_id := 0x12345678, timeout_ms := 1000 } ∧
      (∀ h2, h2 ≠ hif → (djtg_enable comm_error reg hif).1 h2 = reg h2)) := by
  constructor
  · intro hc
    subst hc
    rfl
  · intro hc
    subst hc
    refine ⟨rfl, ?_, ?_⟩
    · simp [djtg_enable, Registry.update, JtagDevice.mkDefault]
    · intro h2 hne
      simp [djtg_enable, Registry.update, hne]

/-- C6: on an enabled handle the bulk shift fails exactly when the pre-flight
estimate cbit/1000 exceeds the stored timeout, and in that case it returns
with the trace, the output vector and the registry untouched. -/
theorem put_timeout_iff (oracle : Oracle) (reg : Registry) (hif : Int) (d : JtagDevice)
    (tms_data tdi_data : List Nat) (cbit : Nat) (overlap : Bool) (trace : List StepCall)
    (hreg : reg hif = some d) (hen : d.enabled = true) :
    ((djtg_put_tms_tdi_bits oracle reg hif tms_data tdi_data cbit overlap trace).2.2 = none
        ↔ (cbit : Int) / 1000 > d.timeout_ms) ∧
    ((cbit : Int) / 1000 > d.timeout_ms →
      djtg_put_tms_tdi_bits oracle reg hif tms_data tdi_data cbit overlap trace
        = (reg, trace, none)) := by
  by_cases ht : (cbit : Int) / 1000 > d.timeout_ms
  · have hfail : djtg_put_tms_tdi_bits oracle reg hif tms_data tdi_data cbit overlap trace
        = (reg, trace, none) := by
      simp [djtg_put_tms_tdi_bits, hreg, hen, simulate_timeout, ht]
    rw [hfail]
    exact ⟨⟨fun _ => ht, fun _ => rfl⟩, fun _ => rfl⟩
  · have hok : simulate_timeout ((cbit : Int) / 1000) d.timeout_ms = false := by
      simp [simulate_timeout, ht]
    have hsucc : (djtg_put_tms_tdi_bits oracle reg hif tms_data tdi_data cbit overlap trace).2.2
        = some ((List.range cbit).foldl (put_step oracle tms_data tdi_data cbit)
            (trace, List.replicate ((cbit + 7) / 8) 0)).2 := by
      simp [djtg_put_tms_tdi_bits, hreg, hen, hok]
    constructor
    · rw [hsucc]
      simp [ht]
    · intro hgt
      exact absurd hgt ht

/-- C8: the get-style bulk operation returns the same result, output vector
and call trace as the put-style operation on the same arguments, and neither
depends on the overlap argument. -/
theorem get_put_bits_identical (oracle : Oracle) (reg : Registry) (hif : Int)
    (tms_data tdi_data : List Nat) (cbit : Nat) (ov1 ov2 : Bool) (trace : List StepCall) :
    djtg_get_tms_tdi_tdo_bits oracle reg hif tms_data tdi_data cbit ov1 trace
        = djtg_put_tms_tdi_bits oracle reg hif tms_data tdi_data cbit ov1 trace ∧
    djtg_put_tms_tdi_bits oracle reg hif tms_data tdi_data cbit ov1 trace
        = djtg_put_tms_tdi_bits oracle reg hif tms_data tdi_data cbit ov2 trace :=
  ⟨rfl, rfl⟩

/-! ### Concrete fixtures for the witnesses -/

/-- The empty registry. -/
def regEmpty : Registry := fun _ => none

/-- A freshly enabled device, as enable creates it. -/
def devW : JtagDevice := { JtagDevice.mkDefault with enabled := true }

/-- A registry with handle 1 enabled. -/
def regW : Registry := Registry.update regEmpty 1 devW

/-- A registry whose handle 2 entry exists but is disabled. -/
def regD : Registry := Registry.update regEmpty 2 JtagDevice.mkDefault

/-- A nontrivial concrete oracle for the witnesses. -/
def oracleW : Oracle := fun t => decide (t.length % 2 = 1)

/-- C1 witness: the bulk-shift theorem applied to a concrete enabled handle,
3 bits of the vectors 170 and 204, and a concrete oracle. -/
theorem put_tms_tdi_bits_correct_witness :
    regW 1 = some devW ∧ devW.enabled = true ∧
    simulate_timeout (((3 : Nat) : Int) / 1000) devW.timeout_ms = false ∧
    bulk_shift_spec oracleW regW [170] [204] 3 []
      (djtg_put_tms_tdi_bits oracleW regW 1 [170] [204] 3 false []) :=
  ⟨by decide, by decide, by decide,
   put_tms_tdi_bits_correct oracleW regW 1 devW [170] [204] 3 false []
     (by decide) (by decide) (by decide)⟩

/-- C3 witness: the clamping theorem applied to handle 1 and request 7777777. -/
theorem set_speed_clamps_witness :
    regW 1 = some devW ∧ devW.enabled = true ∧ set_speed_spec regW 1 devW 7777777 :=
  ⟨by decide, by decide, set_speed_clamps regW 1 devW 7777777 (by decide) (by decide)⟩

/-- C4 witness: the failure theorem applied to the registry whose handle 2
entry is disabled. -/
theorem not_enabled_ops_fail_witness :
    (∀ d, regD 2 = some d → d.enabled = false) ∧ not_enabled_spec regD 2 := by
  have h : ∀ d, regD 2 = some d → d.enabled = false := by
    intro d hd
    have h2 : regD 2 = some JtagDevice.mkDefault := by decide
    rw [h2] at hd
    injection hd with h3
    rw [← h3]
    rfl
  exact ⟨h, not_enabled_ops_fail regD 2 h⟩

/-- C5 witness: both branches of the enable theorem at handle 5 of the empty
registry. -/
theorem enable_behavior_witness :
    djtg_enable true regEmpty 5 = (regEmpty, false) ∧
    (djtg_enable false regEmpty 5).2 = true ∧
    (djtg_enable false regEmpty 5).1 5
      = some { enabled := true, clock_freq := 1000000, tck_state := false,
               tms_state := false, tdi_state := false, tdo_state := false,
               device_id := 0x12345678, timeout_ms := 1000 } ∧
    (djtg_enable false regEmpty 5).1 7 = regEmpty 7 :=
  ⟨(enable_behavior true regEmpty 5).1 rfl,
   ((enable_behavior false regEmpty 5).2 rfl).1,
   ((enable_behavior false regEmpty 5).2 rfl).2.1,
   ((enable_behavior false regEmpty 5).2 rfl).2.2 7 (by decide)⟩

/-! ### Lemmas about the codec loops -/

/-- Body of the bits_to_bytes loop. -/
def pack_step (bits : List Bool) (bytes : List Nat) (i : Nat) : List Nat :=
  if bits.getD i false then
    bytes.set (i / 8) ((bytes.getD (i / 8) 0) ||| (1 <<< (i % 8)))
  else bytes

lemma bits_to_bytes_eq (bits : List Bool) :
    bits_to_bytes bits
      = (List.range bits.length).foldl (pack_step bits)
          (List.replicate ((bits.length + 7) / 8) 0) := rfl

lemma pack_step_eq (bits : List Bool) (bytes : List Nat) (i : Nat) :
    pack_step bits bytes i =
      if bits.getD i false then
        bytes.set (i / 8) ((bytes.getD (i / 8) 0) ||| (1 <<< (i % 8)))
      else bytes := rfl

lemma testBit_of_lt_256 (x p : Nat) (hx : x < 256) (hp : 8 ≤ p) :
    Nat.testBit x p = false := by
  refine Nat.testBit_lt_two_pow (lt_of_lt_of_le hx ?_)
  calc (256 : Nat) = 2 ^ 8 := by norm_num
  _ ≤ 2 ^ p := Nat.pow_le_pow_right (by norm_num) hp

lemma pack_foldl_length (bits : List Bool) :
    ∀ (l : List Nat) (td : List Nat), (l.foldl (pack_step bits) td).length = td.length
  | [], _ => rfl
  | i :: t, td => by
      rw [List.foldl_cons, pack_foldl_length bits t (pack_step bits td i)]
      unfold pack_step
      split
      · exact List.length_set td _ _
      · rfl

lemma pack_foldl_preserve (bits : List Bool) :
    ∀ (l : List Nat) (td : List Nat) (B P : Nat),
      (∀ j ∈ l, ¬(j / 8 = B ∧ j % 8 = P)) →
      Nat.testBit ((l.foldl (pack_step bits) td).getD B 0) P = Nat.testBit (td.getD B 0) P
  | [], _, _, _, _ => rfl
  | i :: t, td, B, P, h => by
      rw [List.foldl_cons,
        pack_foldl_preserve bits t (pack_step bits td i) B P
          (fun j hj => h j (List.mem_cons_of_mem i hj))]
      have hi := h i (List.mem_cons_self i t)
      unfold pack_step
      split
      · exact testBit_setOr_ne td i B P hi
      · rfl

lemma pack_range_bit (bits : List Bool) (n : Nat) (td : List Nat)
    (hzero : ∀ B P, Nat.testBit (td.getD B 0) P = false)
    (hlen : ∀ i, i < n → i / 8 < td.length) (i : Nat) (hi : i < n) :
    Nat.testBit (((List.range n).foldl (pack_step bits) td).getD (i / 8) 0) (i % 8)
      = bits.getD i false := by
  have hsplit : List.range n
      = List.range (i + 1) ++ (List.range (n - (i + 1))).map ((i + 1) + ·) := by
    rw [← List.range_add]
    congr 1
    omega
  rw [hsplit, List.foldl_append,
    pack_foldl_preserve bits _ _ _ _ (by
      intro j hj
      simp only [List.mem_map, List.mem_range] at hj
      obtain ⟨k, hk1, hk2⟩ := hj
      omega)]
  rw [List.range_succ, List.foldl_append, List.foldl_cons, List.foldl_nil]
  have hbit0 : Nat.testBit
      (((List.range i).foldl (pack_step bits) td).getD (i / 8) 0) (i % 8) = false := by
    rw [pack_foldl_preserve bits _ _ _ _ (by
      intro j hj
      simp only [List.mem_range] at hj
      omega)]
    exact hzero _ _
  rw [pack_step_eq]
  split
  case isTrue hb =>
    rw [testBit_setOr_self]
    · exact hb.symm
    · rw [pack_foldl_length]
      exact hlen i hi
  case isFalse hb =>
    rw [hbit0]
    simp only [Bool.not_eq_true] at hb
    exact hb.symm

lemma pack_range_zero (bits : List Bool) (n : Nat) (td : List Nat)
    (hzero : ∀ B P, Nat.testBit (td.getD B 0) P = false) (B P : Nat)
    (h : ∀ j, j < n → ¬(j / 8 = B ∧ j % 8 = P)) :
    Nat.testBit (((List.range n).foldl (pack_step bits) td).getD B 0) P = false := by
  rw [pack_foldl_preserve bits _ _ _ _ (fun j hj => h j (List.mem_range.mp hj))]
  exact hzero B P

lemma pack_foldl_lt256 (bits : List Bool) :
    ∀ (l : List Nat) (td : List Nat), (∀ B, td.getD B 0 < 256) →
      ∀ B, (l.foldl (pack_step bits) td).getD B 0 < 256
  | [], _, h, B => h B
  | i :: t, td, h, B => by
      rw [List.foldl_cons]
      refine pack_foldl_lt256 bits t (pack_step bits td i) ?_ B
      intro B2
      unfold pack_step
      split
      · rw [getD_set_cases]
        split
        · have h1 : td.getD (i / 8) 0 < 2 ^ 8 := h _
          have h2 : (1 <<< (i % 8) : Nat) < 2 ^ 8 := by
            rw [Nat.shiftLeft_eq, one_mul]
            have hm : i % 8 < 8 := Nat.mod_lt _ (by norm_num)
            calc (2 : Nat) ^ (i % 8) ≤ 2 ^ 7 := Nat.pow_le_pow_right (by norm_num) (by omega)
            _ < 2 ^ 8 := by norm_num
          exact Nat.or_lt_two_pow h1 h2
        · exact h B2
      · exact h B2

lemma getD_of_length_le {α : Type} (d : α) (l : List α) (n : Nat) (h : l.length ≤ n) :
    l.getD n d = d := by
  rw [List.getD_eq_getElem?_getD, List.getElem?_eq_none h]
  rfl

lemma bytes_to_bits_length (bytes : List Nat) (bit_count : Nat) :
    (bytes_to_bits bytes bit_count).length = bit_count := by
  simp [bytes_to_bits]

lemma bytes_to_bits_getD (bytes : List Nat) (bit_count i : Nat) (hi : i < bit_count) :
    (bytes_to_bits bytes bit_count).getD i false
      = Nat.testBit (bytes.getD (i / 8) 0) (i % 8) := by
  unfold bytes_to_bits
  rw [List.getD_eq_getElem?_getD, List.getElem?_map, List.getElem?_range hi]
  rfl

lemma getD_lt_of_forall (bytes : List Nat) (hb : ∀ x ∈ bytes, x < 256) (j : Nat) :
    bytes.getD j 0 < 256 := by
  by_cases hj : j < bytes.length
  · rw [List.getD_eq_getElem?_getD, List.getElem?_eq_getElem hj]
    exact hb _ (List.getElem_mem hj)
  · rw [getD_of_length_le 0 bytes j (Nat.le_of_not_lt hj)]
    norm_num

/-- Codec contract: pack is inverse to unpack on whole bytes, unpack reads
only the first bitCount bit slots, pack writes ceil(len/8) bytes and only the
first len bit slots of them. -/
def codec_spec (bytes : List Nat) : Prop :=
  bits_to_bytes (bytes_to_bits bytes (8 * bytes.length)) = bytes ∧
  (∀ bytes2 n, (∀ i, i < n →
      Nat.testBit (bytes.getD (i / 8) 0) (i % 8)
        = Nat.testBit (bytes2.getD (i / 8) 0) (i % 8)) →
    bytes_to_bits bytes n = bytes_to_bits bytes2 n) ∧
  (∀ bits : List Bool, (bits_to_bytes bits).length = (bits.length + 7) / 8) ∧
  (∀ bits : List Bool, ∀ B P, (P < 8 → bits.length ≤ 8 * B + P) →
    Nat.testBit ((bits_to_bytes bits).getD B 0) P = false)

/-- C7: for every byte sequence, packing the unpacked bits recovers the
bytes; unpack depends only on the declared bits, and pack writes nothing
beyond the declared bits. -/
theorem pack_unpack_roundtrip (bytes : List Nat) (hb : ∀ x ∈ bytes, x < 256) :
    codec_spec bytes := by
  refine ⟨?_, ?_, ?_, ?_⟩
  · have hblen : (bytes_to_bits bytes (8 * bytes.length)).length = 8 * bytes.length :=
      bytes_to_bits_length bytes (8 * bytes.length)
    apply list_eq_of_getD 0
    · rw [bits_to_bytes_eq, pack_foldl_length, List.length_replicate, hblen]
      omega
    · intro j
      by_cases hjlen : j < bytes.length
      case pos =>
        apply Nat.eq_of_testBit_eq
        intro p
        by_cases hp : p < 8
        case pos =>
          have hL := pack_range_bit (bytes_to_bits bytes (8 * bytes.length))
            (bytes_to_bits bytes (8 * bytes.length)).length
            (List.replicate (((bytes_to_bits bytes (8 * bytes.length)).length + 7) / 8) 0)
            (testBit_getD_replicate_zero _)
            (by intro i hi2; simp only [List.length_replicate]; omega)
            (8 * j + p) (by rw [hblen]; omega)
          rw [show (8 * j + p) / 8 = j by omega, show (8 * j + p) % 8 = p by omega] at hL
          rw [bits_to_bytes_eq, hL, bytes_to_bits_getD bytes _ _ (by omega),
            show (8 * j + p) / 8 = j by omega, show (8 * j + p) % 8 = p by omega]
        case neg =>
          have hL : Nat.testBit ((bits_to_bytes (bytes_to_bits bytes (8 * bytes.length))).getD j 0)
              p = false := by
            rw [bits_to_bytes_eq]
            have hlt := pack_foldl_lt256 (bytes_to_bits bytes (8 * bytes.length))
              (List.range (bytes_to_bits bytes (8 * bytes.length)).length)
              (List.replicate (((bytes_to_bits bytes (8 * bytes.length)).length + 7) / 8) 0)
              (by intro B; rw [getD_replicate_zero]; norm_num) j
            exact testBit_of_lt_256 _ p hlt (by omega)
          have hR : Nat.testBit (bytes.getD j 0) p = false :=
            testBit_of_lt_256 _ p (getD_lt_of_forall bytes hb j) (by omega)
          rw [hL, hR]
      case neg =>
        rw [getD_of_length_le 0 _ j
            (by rw [bits_to_bytes_eq, pack_foldl_length, List.length_replicate, hblen]; omega),
          getD_of_length_le 0 bytes j (by omega)]
  · intro bytes2 n hagree
    unfold bytes_to_bits
    apply List.map_congr_left
    intro i hi
    exact hagree i (List.mem_range.mp hi)
  · intro bits
    rw [bits_to_bytes_eq, pack_foldl_length, List.length_replicate]
  · intro bits B P hBP
    by_cases hp : P < 8
    · rw [bits_to_bytes_eq]
      refine pack_range_zero bits bits.length _ (testBit_getD_replicate_zero _) B P ?_
      intro j hj hcon
      obtain ⟨h1, h2⟩ := hcon
      have := hBP hp
      omega
    · rw [bits_to_bytes_eq]
      have hlt := pack_foldl_lt256 bits (List.range bits.length)
        (List.replicate ((bits.length + 7) / 8) 0)
        (by intro B2; rw [getD_replicate_zero]; norm_num) B
      exact testBit_of_lt_256 _ P hlt (by omega)

/-- C7 witness: the codec theorem applied to the bytes of 0x12345678. -/
theorem pack_unpack_roundtrip_witness :
    (∀ x ∈ [18, 52, 86, 120], x < 256) ∧ codec_spec [18, 52, 86, 120] :=
  ⟨by decide, pack_unpack_roundtrip [18, 52, 86, 120] (by decide)⟩

/-- C10: unpacking the packed bytes with the original bit length recovers any
bit sequence exactly, including lengths that are not a multiple of 8. -/
theorem unpack_pack_roundtrip (bits : List Bool) :
    bytes_to_bits (bits_to_bytes bits) bits.length = bits := by
  apply list_eq_of_getD false
  · rw [bytes_to_bits_length]
  · intro j
    by_cases hj : j < bits.length
    · rw [bytes_to_bits_getD _ _ _ hj, bits_to_bytes_eq,
        pack_range_bit bits bits.length _ (testBit_getD_replicate_zero _)
          (by intro i hi; simp only [List.length_replicate]; omega) j hj]
    · rw [getD_of_length_le false _ _ (by rw [bytes_to_bits_length]; omega),
        getD_of_length_le false _ _ (by omega)]

/-! ### Lemmas about the MSB-first shifter -/

/-- Body of the shift_data_register_msb_first loop. -/
def msb_step (oracle : Oracle) (data bit_count : Nat)
    (acc : List StepCall × Nat) (i : Nat) : List StepCall × Nat :=
  let bit_val := Nat.testBit data (bit_count - 1 - i)
  let is_last := decide (i = bit_count - 1)
  let r := sv_jtag_step oracle acc.1 is_last bit_val is_last
  (r.1, if r.2 then acc.2 ||| (1 <<< (bit_count - 1 - i)) else acc.2)

lemma shift_msb_eq (oracle : Oracle) (trace : List StepCall) (data bit_count : Nat) :
    shift_data_register_msb_first oracle trace data bit_count
      = (List.range bit_count).foldl (msb_step oracle data bit_count) (trace, 0) := rfl

lemma msb_step_fst (o : Oracle) (data bc : Nat) (acc : List StepCall × Nat) (i : Nat) :
    (msb_step o data bc acc i).1 = acc.1 ++ [msb_call data bc i] := rfl

lemma msb_step_snd (o : Oracle) (data bc : Nat) (acc : List StepCall × Nat) (i : Nat) :
    (msb_step o data bc acc i).2 =
      if o (acc.1 ++ [msb_call data bc i]) then acc.2 ||| (1 <<< (bc - 1 - i))
      else acc.2 := rfl

lemma msb_foldl_trace (o : Oracle) (data bc : Nat) :
    ∀ (l : List Nat) (acc : List StepCall × Nat),
      (l.foldl (msb_step o data bc) acc).1 = acc.1 ++ l.map (msb_call data bc)
  | [], acc => by simp
  | i :: t, acc => by
      rw [List.foldl_cons, msb_foldl_trace o data bc t (msb_step o data bc acc i),
        msb_step_fst]
      simp

lemma msb_foldl_preserve (o : Oracle) (data bc : Nat) :
    ∀ (l : List Nat) (acc : List StepCall × Nat) (q : Nat),
      (∀ j ∈ l, bc - 1 - j ≠ q) →
      Nat.testBit (l.foldl (msb_step o data bc) acc).2 q = Nat.testBit acc.2 q
  | [], _, _, _ => rfl
  | i :: t, acc, q, h => by
      rw [List.foldl_cons,
        msb_foldl_preserve o data bc t (msb_step o data bc acc i) q
          (fun j hj => h j (List.mem_cons_of_mem i hj)),
        msb_step_snd]
      split
      · rw [Nat.testBit_or, testBit_one_shiftLeft]
        have hne := h i (List.mem_cons_self i t)
        simp [hne]
      · rfl

lemma msb_range_bit (o : Oracle) (data bc : Nat) (tr : List StepCall) (i : Nat) (hi : i < bc) :
    Nat.testBit ((List.range bc).foldl (msb_step o data bc) (tr, 0)).2 (bc - 1 - i)
      = o (tr ++ (msb_calls data bc).take (i + 1)) := by
  have hsplit : List.range bc
      = List.range (i + 1) ++ (List.range (bc - (i + 1))).map ((i + 1) + ·) := by
    rw [← List.range_add]
    congr 1
    omega
  rw [hsplit, List.foldl_append,
    msb_foldl_preserve o data bc _ _ _ (by
      intro j hj
      simp only [List.mem_map, List.mem_range] at hj
      obtain ⟨k, hk1, hk2⟩ := hj
      omega)]
  rw [List.range_succ, List.foldl_append, List.foldl_cons, List.foldl_nil, msb_step_snd]
  have htr : ((List.range i).foldl (msb_step o data bc) (tr, 0)).1
      = tr ++ (List.range i).map (msb_call data bc) := msb_foldl_trace o data bc _ _
  have htake : tr ++ (msb_calls data bc).take (i + 1)
      = (tr ++ (List.range i).map (msb_call data bc)) ++ [msb_call data bc i] := by
    rw [msb_calls, ← List.map_take, List.take_range]
    have hmin : min (i + 1) bc = i + 1 := by omega
    rw [hmin, List.range_succ, List.map_append, List.append_assoc]
    simp
  have hbit0 : Nat.testBit
      ((List.range i).foldl (msb_step o data bc) (tr, 0)).2 (bc - 1 - i) = false := by
    rw [msb_foldl_preserve o data bc _ _ _ (by
      intro j hj
      simp only [List.mem_range] at hj
      omega)]
    simp
  rw [htr, htake]
  split
  case isTrue ho =>
    rw [Nat.testBit_or, testBit_one_shiftLeft, ho]
    simp
  case isFalse ho =>
    rw [hbit0]
    simp only [Bool.not_eq_true] at ho
    exact ho.symm

/-- The MSB-first shifter: call i drives TMS and is_last exactly on the final
bit and TDI from bit bit_count-1-i of data, and the TDO captured on call i
lands in bit bit_count-1-i of the result. -/
def msb_shift_spec (oracle : Oracle) (trace : List StepCall) (data bit_count : Nat) : Prop :=
  (shift_data_register_msb_first oracle trace data bit_count).1
      = trace ++ msb_calls data bit_count ∧
  (∀ i, i < bit_count →
    Nat.testBit (shift_data_register_msb_first oracle trace data bit_count).2
        (bit_count - 1 - i)
      = oracle (trace ++ (msb_calls data bit_count).take (i + 1)))

/-- C9: shiftMsbFirst drives TDI from bit bitCount-1 of data down to bit 0,
one call per bit with TMS and isLast set only on the final call, writes the
TDO of call i into bit bitCount-1-i of the result, and on a loopback oracle
shiftMsbFirst(0xA, 4) returns 0xA with TDI bits observed 1,0,1,0 in order. -/
theorem shift_msb_first_correct (oracle : Oracle) (trace : List StepCall)
    (data bit_count : Nat) :
    msb_shift_spec oracle trace data bit_count ∧
    (shift_data_register_msb_first loopback [] 10 4).2 = 10 ∧
    ((shift_data_register_msb_first loopback [] 10 4).1).map StepCall.tdi
      = [true, false, true, false] := by
  refine ⟨⟨?_, ?_⟩, by decide, by decide⟩
  · rw [shift_msb_eq, msb_foldl_trace]
    rfl
  · intro i hi
    rw [shift_msb_eq]
    exact msb_range_bit oracle data bit_count trace i hi

/-- C9 witness: the shifter theorem at a concrete oracle, with the captured
bit equation instantiated at call index 2 of a 4-bit shift. -/
theorem shift_msb_first_correct_witness :
    msb_shift_spec oracleW [] 10 4 ∧
    Nat.testBit (shift_data_register_msb_first oracleW [] 10 4).2 (4 - 1 - 2)
      = oracleW ([] ++ (msb_calls 10 4).take (2 + 1)) :=
  ⟨(shift_msb_first_correct oracleW [] 10 4).1,
   (shift_msb_first_correct oracleW [] 10 4).1.2 2 (by decide)⟩

/-- C6 witness: the timeout theorem applied at 2000000 bits against the
default 1000 ms budget. -/
theorem put_timeout_iff_witness :
    regW 1 = some devW ∧ devW.enabled = true ∧
    (((djtg_put_tms_tdi_bits oracleW regW 1 [] [] 2000000 false []).2.2 = none
        ↔ ((2000000 : Nat) : Int) / 1000 > devW.timeout_ms) ∧
     (((2000000 : Nat) : Int) / 1000 > devW.timeout_ms →
       djtg_put_tms_tdi_bits oracleW regW 1 [] [] 2000000 false [] = (regW, [], none))) :=
  ⟨by decide, by decide,
   put_timeout_iff oracleW regW 1 devW [] [] 2000000 false [] (by decide) (by decide)⟩

end JtagMock
